import Mathlib

/-!
Shallow embedding of the HONE desktop-editor backend
(`src/src-tauri/src/lib.rs`) in Lean 4.

The backend consists of:
* path helpers (`get_file_dir`, built on Rust `std::path::Path::parent`);
* whole-file read/write (`read_file`, `write_file`);
* two JSON record stores in the app-data directory:
  the recent-files store (`recent_files.json`, MRU list capped at 10,
  unique by path) and the session store (`session.json`).

The ambient file system and the two store files are modelled as an explicit
`World` state; every Tauri command becomes a pure function
`World → Except String α × World` (the returned world is the state after the
call, also on the error path, since Rust does not roll back effects).
Fallible I/O that the Rust code only observes through `Result` (reading or
parsing a store file, writing a store file, `fs::write` of a user file) is
modelled by fault flags carried in the `World`; app-data-directory
resolution is assumed to succeed, as no claim concerns `DirectoryError`.
-/

namespace Hone

/-! Section: Unix path semantics.

The Rust code uses `Path::new(s).parent()`, `.file_name()` and `.exists()`.
`parent` and `file_name` are pure string functions; the following is a model
of their documented Unix behaviour: a path is decomposed into components
(optional root, then normal / `.` / `..` segments), repeated separators and
trailing separators are normalized away, and `.` components are dropped
except at the beginning of a relative path. -/

/-- One component of a Unix path, as in Rust `std::path::Component`
(prefixes do not occur on Unix). -/
inductive Component where
  | rootDir : Component
  | curDir : Component
  | parentDir : Component
  | normal : List Char → Component
deriving DecidableEq, Repr

/-- Split a character list on the separator character, keeping empty
segments (the Unix analogue of splitting the path string on every slash). -/
def splitSlash : List Char → List (List Char)
  | [] => [[]]
  | c :: rest =>
    if c = '/' then [] :: splitSlash rest
    else
      match splitSlash rest with
      | [] => [[c]]
      | s :: ss => (c :: s) :: ss

/-- The non-empty slash-separated segments of a path. -/
def pathSegs (p : String) : List (List Char) :=
  (splitSlash p.data).filter (fun s => s != ([] : List Char))

/-- Whether the path is absolute (has a root component). -/
def hasRoot (p : String) : Bool :=
  match p.data with
  | [] => false
  | c :: _ => c == '/'

/-- Classify one non-empty, non-`"."` segment. -/
def segToComp (s : List Char) : Component :=
  if s = ['.', '.'] then Component.parentDir else Component.normal s

/-- The normalized component list of a path, following Rust
`Path::components` on Unix: optional root first, `"."` segments dropped
except as the leading component of a relative path. -/
def pathComponents (p : String) : List Component :=
  let segs := pathSegs p
  let body := (segs.filter (fun s => s != (['.'] : List Char))).map segToComp
  if hasRoot p then Component.rootDir :: body
  else if segs.head? = some ['.'] then Component.curDir :: body
  else body

/-- Characters of one non-root component. -/
def compChars : Component → List Char
  | Component.rootDir => []
  | Component.curDir => ['.']
  | Component.parentDir => ['.', '.']
  | Component.normal s => s

/-- Join non-root components with separators. -/
def joinComps : List Component → List Char
  | [] => []
  | [c] => compChars c
  | c :: rest => compChars c ++ '/' :: joinComps rest

/-- Reassemble a component list into a path string. -/
def renderComps : List Component → String
  | [] => ""
  | Component.rootDir :: rest => String.mk ('/' :: joinComps rest)
  | comps => String.mk (joinComps comps)

/-- Model of Rust `Path::file_name().and_then(|n| n.to_str())`: the final
component when it is a normal segment, `none` otherwise (root, `.`, `..`,
empty path). `to_str` never fails on the Lean side, where strings are
already Unicode. -/
def fileName (p : String) : Option String :=
  match (pathComponents p).getLast? with
  | some (Component.normal s) => some (String.mk s)
  | _ => none

/-- Model of Rust `Path::parent().and_then(|p| p.to_str())`: the path
without its final component, `none` when the path is empty or terminates in
a root. -/
def pathParent (p : String) : Option String :=
  match (pathComponents p).getLast? with
  | none => none
  | some Component.rootDir => none
  | some _ => some (renderComps (pathComponents p).dropLast)

/-! Section: data model, from the Rust source. -/

/-- Rust constant `MAX_RECENT_FILES`, with value 10. -/
def MAX_RECENT_FILES : Nat := 10

/-- Rust struct with fields path, name and accessed_at (epoch seconds). -/
structure RecentFile where
  path : String
  name : String
  accessed_at : Nat
deriving DecidableEq, Repr

/-- Rust struct holding the stored list of recent files; its default
value is the empty list. -/
structure RecentFilesData where
  files : List RecentFile
deriving DecidableEq, Repr

/-- Rust struct holding the open files and the optional active file; its
default value is the empty session. -/
structure SessionData where
  open_files : List String
  active_file : Option String
deriving DecidableEq, Repr

/-- The ambient state a command invocation sees: the file system (a map
from path to text contents, `none` meaning the path does not exist), the
parsed contents of the two store files (`none` meaning the backing JSON
file is absent), and fault flags for the I/O operations that the Rust code
can only observe failing through `Result` (store read/parse, store write,
user-file write). -/
structure World where
  disk : String → Option String
  recentStore : Option RecentFilesData
  sessionStore : Option SessionData
  loadRecentFails : Bool
  saveRecentFails : Bool
  loadSessionFails : Bool
  saveSessionFails : Bool
  fsWriteFails : String → Bool

/-- Model of `Path::new(&p).exists()`. -/
def pathExists (w : World) (p : String) : Bool :=
  (w.disk p).isSome

/-- Error message of `add_recent_file` on a missing path. -/
def notFoundMsg : String := "File does not exist"

/-- Error message prefix of a failed recent-files read or parse. -/
def loadRecentMsg : String := "Failed to read recent files"

/-- Error message prefix of a failed recent-files write. -/
def saveRecentMsg : String := "Failed to write recent files"

/-- Error message prefix of a failed session read or parse. -/
def loadSessionMsg : String := "Failed to read session"

/-- Error message prefix of a failed session write. -/
def saveSessionMsg : String := "Failed to write session"

/-- Error message of `get_file_dir` when the path has no parent. -/
def pathErrMsg : String := "Failed to get directory"

/-- Error message prefix of a failed `read_file`. -/
def readFileMsg : String := "Failed to read file"

/-- Error message prefix of a failed `write_file`. -/
def writeFileMsg : String := "Failed to write file"

/-! Section: record stores, the load and save helpers of the Rust source. -/

/-- Model of `load_recent_files_data`: when the backing file is absent, return the
default document without touching the file; otherwise read and parse it
(both failure modes folded into `loadRecentFails`). -/
def load_recent_files_data (w : World) : Except String RecentFilesData :=
  match w.recentStore with
  | none => Except.ok (RecentFilesData.mk [])
  | some d => if w.loadRecentFails then Except.error loadRecentMsg else Except.ok d

/-- Model of `save_recent_files_data`: serialize and overwrite the backing file
(serialization of these types cannot fail; `fs::write` failure is the
`saveRecentFails` flag). -/
def save_recent_files_data (w : World) (d : RecentFilesData) :
    Except String Unit × World :=
  if w.saveRecentFails then (Except.error saveRecentMsg, w)
  else (Except.ok (), { w with recentStore := some d })

/-- Model of `load_session_data`: as `load_recent_files_data`, for the
session file. -/
def load_session_data (w : World) : Except String SessionData :=
  match w.sessionStore with
  | none => Except.ok (SessionData.mk [] none)
  | some d => if w.loadSessionFails then Except.error loadSessionMsg else Except.ok d

/-- Model of `save_session_data`: as `save_recent_files_data`, for the
session file. -/
def save_session_data (w : World) (d : SessionData) :
    Except String Unit × World :=
  if w.saveSessionFails then (Except.error saveSessionMsg, w)
  else (Except.ok (), { w with sessionStore := some d })

/-! Section: the Tauri commands. -/

/-- Command `read_file`, a direct `fs::read_to_string(&path)`. -/
def read_file (w : World) (path : String) : Except String String :=
  match w.disk path with
  | some c => Except.ok c
  | none => Except.error readFileMsg

/-- Command `write_file`, a direct `fs::write(&path, content)`,
overwriting or creating. -/
def write_file (w : World) (path content : String) :
    Except String Unit × World :=
  if w.fsWriteFails path then (Except.error writeFileMsg, w)
  else
    (Except.ok (),
      { w with disk := fun q => if q = path then some content else w.disk q })

/-- Command `get_file_dir`: `Path::new(&path).parent().and_then(to_str)`,
`PathError` when there is no parent. -/
def get_file_dir (path : String) : Except String String :=
  match pathParent path with
  | some d => Except.ok d
  | none => Except.error pathErrMsg

/-- Command `get_recent_files`: load, drop entries whose path no longer exists,
save back only if something was dropped (a failing save propagates), return
the pruned list. -/
def get_recent_files (w : World) : Except String (List RecentFile) × World :=
  match load_recent_files_data w with
  | Except.error e => (Except.error e, w)
  | Except.ok data =>
    let files := data.files.filter (fun f => pathExists w f.path)
    if files.length != data.files.length then
      match save_recent_files_data w (RecentFilesData.mk files) with
      | (Except.ok _, w') => (Except.ok files, w')
      | (Except.error e, w') => (Except.error e, w')
    else (Except.ok files, w)

/-- Command `add_recent_file`: reject a missing path, load, derive `name` from the
final path segment (falling back to the whole path), drop any existing
entry with the same path, push the new entry at the front stamped with the
current time, truncate to `MAX_RECENT_FILES`, save. `now` is the value the
`SystemTime::now()` read produces at this call (already including the
fall-back to 0 on clock error). -/
def add_recent_file (w : World) (now : Nat) (path : String) :
    Except String Unit × World :=
  if pathExists w path then
    match load_recent_files_data w with
    | Except.error e => (Except.error e, w)
    | Except.ok data =>
      let name := (fileName path).getD path
      let kept := data.files.filter (fun f => f.path != path)
      let files := RecentFile.mk path name now :: kept
      save_recent_files_data w (RecentFilesData.mk (files.take MAX_RECENT_FILES))
  else (Except.error notFoundMsg, w)

/-- Command `get_session`: load, drop missing `open_files`, clear a missing
`active_file`, write the correction back only when the `open_files` list
shrank — and swallow a failure of that write (`let _ = ...`), still
returning the corrected value. -/
def get_session (w : World) : Except String SessionData × World :=
  match load_session_data w with
  | Except.error e => (Except.error e, w)
  | Except.ok data =>
    let opens := data.open_files.filter (fun p => pathExists w p)
    let active :=
      match data.active_file with
      | some a => if pathExists w a then some a else none
      | none => none
    let corrected := SessionData.mk opens active
    if opens.length != data.open_files.length then
      (Except.ok corrected, (save_session_data w corrected).2)
    else (Except.ok corrected, w)

/-- Command `save_session`: replace the whole session document with the given
values and persist it. -/
def save_session (w : World) (open_files : List String)
    (active_file : Option String) : Except String Unit × World :=
  save_session_data w (SessionData.mk open_files active_file)

/-- Sequential invocation of `add_recent_file` on each path of a list in
order (stopping at the first failure), used to state multi-add properties. -/
def addAll (w : World) (now : Nat) : List String → Except String Unit × World
  | [] => (Except.ok (), w)
  | p :: rest =>
    match add_recent_file w now p with
    | (Except.ok _, w') => addAll w' now rest
    | (Except.error e, w') => (Except.error e, w')

/-- The recent-files list a load at `w` would produce when it succeeds
(the stored list, or the default empty list when the file is absent). -/
def loadedFiles (w : World) : List RecentFile :=
  (w.recentStore.getD (RecentFilesData.mk [])).files

/-- The path column of a recent-files list. -/
def pathsOf (fs : List RecentFile) : List String :=
  fs.map (fun f => f.path)

/-- The recent-files list after dropping entries whose path no longer
exists, exactly as `get_recent_files` computes it. -/
def prunedRecent (w : World) (d : RecentFilesData) : List RecentFile :=
  d.files.filter (fun f => pathExists w f.path)

/-- The corrected session `get_session` computes: missing `open_files`
dropped, a missing `active_file` cleared. -/
def prunedSession (w : World) (s : SessionData) : SessionData :=
  SessionData.mk (s.open_files.filter (fun q => pathExists w q))
    (match s.active_file with
     | some a => if pathExists w a then some a else none
     | none => none)

/-- A small concrete file system used to instantiate theorems: two
existing files under `/a`, everything else absent. -/
def sampleDisk : String → Option String := fun p =>
  if p = ("/a/x.txt") then some ("hello")
  else if p = ("/a/y.txt") then some ("there")
  else none

/-- A concrete healthy world: both store files absent, no injected I/O
faults. -/
def sampleWorld : World where
  disk := sampleDisk
  recentStore := none
  sessionStore := none
  loadRecentFails := false
  saveRecentFails := false
  loadSessionFails := false
  saveSessionFails := false
  fsWriteFails := fun _ => false

/-- A stored recent-files document with one surviving and one stale
entry (relative to `sampleDisk`). -/
def sampleRecentData : RecentFilesData :=
  RecentFilesData.mk
    [RecentFile.mk ("/a/x.txt") ("x.txt") 1,
     RecentFile.mk ("/gone.txt") ("gone.txt") 2]

/-- The world `sampleWorld` with the recent-files store present. -/
def worldWithRecent : World :=
  { sampleWorld with recentStore := some sampleRecentData }

/-- A stored session with one live open file, one stale open file and a
stale active file (relative to `sampleDisk`). -/
def sampleSessionData : SessionData :=
  SessionData.mk [("/a/x.txt"), ("/gone.txt")] (some ("/gone.txt"))

/-- The world `sampleWorld` with the session store present and the session save
failing, exercising the swallowed-error path of `get_session`. -/
def worldWithSession : World :=
  { sampleWorld with
    sessionStore := some sampleSessionData,
    saveSessionFails := true }

/-- Eleven distinct concrete paths. -/
def elevenPaths : List String :=
  [("/f0"), ("/f1"), ("/f2"), ("/f3"), ("/f4"), ("/f5"), ("/f6"),
   ("/f7"), ("/f8"), ("/f9"), ("/fA")]

/-- A healthy world whose disk holds exactly the eleven paths and whose
stores are fresh. -/
def elevenWorld : World :=
  { sampleWorld with
    disk := fun p => if elevenPaths.contains p then some ("") else none }

/-! Section: theorems. -/

/-- C3: for a path that does not exist on disk, `add_recent_file` fails
with the not-found error and returns the world unchanged — in particular
the recent-files store is neither read nor written, as the fault flags of
`w` are unconstrained and the result does not depend on them. -/
theorem add_recent_file_missing (w : World) (t : Nat) (p : String)
    (h : pathExists w p = false) :
    add_recent_file w t p = (Except.error notFoundMsg, w) := by
  simp [add_recent_file, h]

theorem add_recent_file_missing_witness :
    add_recent_file sampleWorld 3 ("/missing.txt")
      = (Except.error notFoundMsg, sampleWorld) :=
  add_recent_file_missing sampleWorld 3 ("/missing.txt") rfl

/-- C7: a successful `write_file` followed by `read_file` on the same path
returns exactly the written content. -/
theorem write_file_read_file_roundtrip (w : World) (p c : String)
    (h : w.fsWriteFails p = false) :
    (write_file w p c).1 = Except.ok () ∧
    read_file (write_file w p c).2 p = Except.ok c := by
  simp [write_file, read_file, h]

theorem write_file_read_file_roundtrip_witness :
    read_file (write_file sampleWorld ("/new.txt") ("abc")).2 ("/new.txt")
      = Except.ok ("abc") :=
  (write_file_read_file_roundtrip sampleWorld ("/new.txt") ("abc") rfl).2

/-- C8: `get_file_dir` returns the parent component of the path and fails
with the path error exactly when the path has no parent; in particular it
maps `"/a/b/c.txt"` to `"/a/b"` and fails on `"/"`. -/
theorem get_file_dir_spec :
    (∀ p d, pathParent p = some d → get_file_dir p = Except.ok d) ∧
    (∀ p, pathParent p = none → get_file_dir p = Except.error pathErrMsg) ∧
    get_file_dir ("/a/b/c.txt") = Except.ok ("/a/b") ∧
    get_file_dir ("/") = Except.error pathErrMsg := by
  refine ⟨fun p d h => ?_, fun p h => ?_, rfl, rfl⟩ <;> simp [get_file_dir, h]

theorem get_file_dir_spec_witness :
    get_file_dir ("./x/y") = Except.ok ("./x") :=
  get_file_dir_spec.1 ("./x/y") ("./x") rfl

/-- C9: when a store's backing file is absent, loading it returns the
document type's default value, the read-side commands leave the world
untouched (in particular the file is not created by a load), and only a
save creates the file. -/
theorem load_absent_returns_default (w : World)
    (hr : w.recentStore = none) (hs : w.sessionStore = none) :
    load_recent_files_data w = Except.ok (RecentFilesData.mk []) ∧
    load_session_data w = Except.ok (SessionData.mk [] none) ∧
    get_recent_files w = (Except.ok [], w) ∧
    get_session w = (Except.ok (SessionData.mk [] none), w) ∧
    (w.saveRecentFails = false → ∀ d,
      ((save_recent_files_data w d).2).recentStore = some d) ∧
    (w.saveSessionFails = false → ∀ d,
      ((save_session_data w d).2).sessionStore = some d) := by
  refine ⟨?_, ?_, ?_, ?_, fun hf d => ?_, fun hf d => ?_⟩ <;>
    simp [load_recent_files_data, load_session_data, get_recent_files,
      get_session, save_recent_files_data, save_session_data, hr, hs] <;>
    simp [hf]

theorem load_absent_returns_default_witness :
    get_recent_files sampleWorld = (Except.ok [], sampleWorld) :=
  (load_absent_returns_default sampleWorld rfl rfl).2.2.1

/-- Splitting a character list that contains no separator yields that list
as the single segment. -/
theorem splitSlash_no_slash (cs : List Char) (h : ('/') ∉ cs) :
    splitSlash cs = [cs] := by
  induction cs with
  | nil => rfl
  | cons c rest ih =>
    have hc : ¬ c = '/' := fun hc => h (hc ▸ List.mem_cons_self c rest)
    have hr : ('/') ∉ rest := fun hm => h (List.mem_cons_of_mem c hm)
    simp [splitSlash, hc, ih hr]

/-- C10: a non-empty relative path with no separator (a single segment,
such as a bare file name) has a parent in the Rust sense, namely the empty
string, so `get_file_dir` succeeds and returns `""`. -/
theorem get_file_dir_single_segment (p : String)
    (h1 : p ≠ ("")) (h2 : ('/') ∉ p.data) :
    get_file_dir p = Except.ok ("") := by
  have hd : p.data ≠ [] := by
    intro hnil
    apply h1
    cases p with
    | mk l =>
      simp only at hnil
      rw [hnil]
  obtain ⟨c, rest, hcr⟩ := List.exists_cons_of_ne_nil hd
  have hc : c ≠ '/' := by
    intro hc
    exact h2 (by rw [hcr, hc]; exact List.mem_cons_self _ _)
  have hsegs : pathSegs p = [p.data] := by
    simp [pathSegs, splitSlash_no_slash p.data h2, hd]
  have hroot : hasRoot p = false := by
    simp [hasRoot, hcr, hc]
  by_cases hdot : p.data = ['.']
  · simp [get_file_dir, pathParent, pathComponents, hsegs, hroot, hdot,
      renderComps]
  · have hcomps : pathComponents p = [segToComp p.data] := by
      simp [pathComponents, hsegs, hroot, hdot]
    cases hsc : segToComp p.data with
    | rootDir =>
      exact absurd hsc (by unfold segToComp; split <;> simp)
    | curDir =>
      exact absurd hsc (by unfold segToComp; split <;> simp)
    | parentDir =>
      simp [get_file_dir, pathParent, hcomps, hsc, renderComps]
    | normal s =>
      simp [get_file_dir, pathParent, hcomps, hsc, renderComps]

theorem get_file_dir_single_segment_witness :
    get_file_dir ("c.txt") = Except.ok ("") :=
  get_file_dir_single_segment ("c.txt") (by decide) (by decide)

/-- Canonical form of a successful `add_recent_file`: with the path present
on disk and no injected store faults, the call returns `ok` and replaces
the store with the deduplicated, front-inserted, truncated list. -/
theorem add_recent_file_ok_eq (w : World) (t : Nat) (p : String)
    (hex : pathExists w p = true) (hload : w.loadRecentFails = false)
    (hsave : w.saveRecentFails = false) :
    add_recent_file w t p =
      (Except.ok (),
        { w with recentStore := some (RecentFilesData.mk
            ((RecentFile.mk p ((fileName p).getD p) t ::
              (loadedFiles w).filter (fun f => f.path != p)).take
                MAX_RECENT_FILES)) }) := by
  cases hw : w.recentStore with
  | none =>
    simp [add_recent_file, load_recent_files_data, save_recent_files_data,
      loadedFiles, hex, hload, hsave, hw]
  | some d =>
    simp [add_recent_file, load_recent_files_data, save_recent_files_data,
      loadedFiles, hex, hload, hsave, hw]

/-- The list a successful add produces: the fresh entry in front of the
filtered old list, truncated to the cap. Its head is the fresh entry and it
contains exactly one entry carrying the added path. -/
theorem fresh_entry_head_count (p : String) (x : RecentFile)
    (fs : List RecentFile) (hxp : x.path = p) :
    ((x :: fs.filter (fun f => f.path != p)).take MAX_RECENT_FILES).head?
      = some x ∧
    ((x :: fs.filter (fun f => f.path != p)).take MAX_RECENT_FILES).countP
      (fun f => f.path == p) = 1 := by
  rw [MAX_RECENT_FILES, show (10 : Nat) = 9 + 1 from rfl, List.take_succ_cons]
  refine ⟨rfl, ?_⟩
  rw [List.countP_cons]
  have hzero :
      (List.take 9 (fs.filter (fun f => f.path != p))).countP
        (fun f => f.path == p) = 0 := by
    rw [List.countP_eq_zero]
    intro f hf
    have hmem := List.mem_of_mem_take hf
    have hkeep := List.of_mem_filter hmem
    simp only [bne_iff_ne, ne_eq] at hkeep
    simp [hkeep]
  simp [hzero, hxp]

/-- C1: adding an existing path succeeds and leaves the store with exactly
one entry for that path, sitting at the front, named after the path's final
segment (with the full path as fall-back) and stamped with the call's
timestamp; adding the same path again keeps a single entry for it, again in
front, restamped with the second call's timestamp. -/
theorem add_recent_file_spec (w : World) (p : String) (t₁ t₂ : Nat)
    (hex : pathExists w p = true) (hload : w.loadRecentFails = false)
    (hsave : w.saveRecentFails = false) :
    (add_recent_file w t₁ p).1 = Except.ok () ∧
    (∃ d₁, ((add_recent_file w t₁ p).2).recentStore = some d₁ ∧
      d₁.files.head? = some (RecentFile.mk p ((fileName p).getD p) t₁) ∧
      d₁.files.countP (fun f => f.path == p) = 1) ∧
    (add_recent_file (add_recent_file w t₁ p).2 t₂ p).1 = Except.ok () ∧
    (∃ d₂, ((add_recent_file (add_recent_file w t₁ p).2 t₂ p).2).recentStore
        = some d₂ ∧
      d₂.files.head? = some (RecentFile.mk p ((fileName p).getD p) t₂) ∧
      d₂.files.countP (fun f => f.path == p) = 1) := by
  rw [add_recent_file_ok_eq w t₁ p hex hload hsave]
  set w₁ : World :=
    { w with recentStore := some (RecentFilesData.mk
        ((RecentFile.mk p ((fileName p).getD p) t₁ ::
          (loadedFiles w).filter (fun f => f.path != p)).take
            MAX_RECENT_FILES)) } with hw₁
  have hex₁ : pathExists w₁ p = true := hex
  have hload₁ : w₁.loadRecentFails = false := hload
  have hsave₁ : w₁.saveRecentFails = false := hsave
  rw [add_recent_file_ok_eq w₁ t₂ p hex₁ hload₁ hsave₁]
  have h₁ := fresh_entry_head_count p
    (RecentFile.mk p ((fileName p).getD p) t₁) (loadedFiles w) rfl
  have h₂ := fresh_entry_head_count p
    (RecentFile.mk p ((fileName p).getD p) t₂) (loadedFiles w₁) rfl
  exact ⟨rfl, ⟨_, rfl, h₁.1, h₁.2⟩, rfl, ⟨_, rfl, h₂.1, h₂.2⟩⟩

theorem add_recent_file_spec_witness :
    (add_recent_file (add_recent_file sampleWorld 5 ("/a/x.txt")).2 7
      ("/a/x.txt")).1 = Except.ok () :=
  (add_recent_file_spec sampleWorld ("/a/x.txt") 5 7 rfl rfl rfl).2.2.1

/-- C4: with a readable store holding `M = d.files.length` entries of
which `N` point to missing paths, `get_recent_files` keeps exactly the
`M - N` surviving entries in their original relative order (the pruned
list is the order-preserving filter of the stored one); with nothing
pruned it returns without writing, with something pruned and a healthy
disk it re-persists the pruned list, and a failing pruning save propagates
as an error. -/
theorem get_recent_files_spec (w : World) (d : RecentFilesData)
    (hstore : w.recentStore = some d) (hload : w.loadRecentFails = false) :
    (prunedRecent w d).length
      = d.files.length - d.files.countP (fun f => !(pathExists w f.path)) ∧
    ((prunedRecent w d).length = d.files.length →
      get_recent_files w = (Except.ok (prunedRecent w d), w)) ∧
    ((prunedRecent w d).length ≠ d.files.length →
      w.saveRecentFails = false →
      get_recent_files w = (Except.ok (prunedRecent w d),
        { w with recentStore := some (RecentFilesData.mk (prunedRecent w d)) })) ∧
    ((prunedRecent w d).length ≠ d.files.length →
      w.saveRecentFails = true →
      get_recent_files w = (Except.error saveRecentMsg, w)) := by
  refine ⟨?_, fun heq => ?_, fun hne hok => ?_, fun hne hbad => ?_⟩
  · have hpart := List.length_eq_countP_add_countP
      (fun f => pathExists w f.path) (l := d.files)
    have hflen := List.countP_eq_length_filter
      (fun f => pathExists w f.path) d.files
    have hnot : d.files.countP (fun f => !(pathExists w f.path))
        = d.files.countP (fun a => decide ¬(pathExists w a.path) = true) := by
      simp
    rw [prunedRecent, ← hflen, hnot]
    omega
  · have hfe : List.filter (fun f => pathExists w f.path) d.files = d.files :=
      (List.filter_sublist d.files).eq_of_length
        (by simpa [prunedRecent] using heq)
    simp [get_recent_files, load_recent_files_data, hstore, hload,
      prunedRecent, hfe]
  · simp only [prunedRecent] at hne
    simp [get_recent_files, load_recent_files_data,
      save_recent_files_data, hstore, hload, hok, prunedRecent]
    intro h
    rw [List.filter_eq_self.mpr h] at hne
    exact absurd rfl hne
  · simp only [prunedRecent] at hne
    simp [get_recent_files, load_recent_files_data,
      save_recent_files_data, hstore, hload, hbad]
    by_contra hcon
    push_neg at hcon
    apply hne
    have hall : ∀ f ∈ d.files, pathExists w f.path = true := by
      intro f hf
      cases hpe : pathExists w f.path with
      | false => exact absurd hpe (hcon f hf)
      | true => rfl
    rw [List.filter_eq_self.mpr hall]

theorem get_recent_files_spec_witness :
    (get_recent_files worldWithRecent).1
      = Except.ok [RecentFile.mk ("/a/x.txt") ("x.txt") 1] := by
  have h := (get_recent_files_spec worldWithRecent sampleRecentData
    rfl rfl).2.2.1 (by decide) rfl
  rw [h]
  rfl

/-- C5: a successful `get_session` returns the corrected session — missing
`open_files` dropped, a missing `active_file` cleared to `none` — so it
never exposes a missing path; the correction is written back only when the
`open_files` list shrank, and a failure of that write is swallowed: the
call still returns the corrected value with `ok`. -/
theorem get_session_spec (w : World) (s : SessionData)
    (hstore : w.sessionStore = some s) (hload : w.loadSessionFails = false) :
    (get_session w).1 = Except.ok (prunedSession w s) ∧
    (∀ b, (prunedSession w s).active_file = some b → pathExists w b = true) ∧
    (∀ q ∈ (prunedSession w s).open_files, pathExists w q = true) ∧
    ((prunedSession w s).open_files.length ≠ s.open_files.length →
      w.saveSessionFails = false →
      (get_session w).2 = { w with sessionStore := some (prunedSession w s) }) ∧
    ((prunedSession w s).open_files.length ≠ s.open_files.length →
      w.saveSessionFails = true →
      (get_session w).2 = w) := by
  refine ⟨?_, fun b hb => ?_, fun q hq => ?_, fun hne hok => ?_,
    fun hne hbad => ?_⟩
  · simp only [get_session, load_session_data, hstore, hload,
      Bool.false_eq_true, if_false, prunedSession]
    split <;> rfl
  · simp only [prunedSession] at hb
    cases ha : s.active_file with
    | none => simp [ha] at hb
    | some a =>
      simp only [ha] at hb
      by_cases hex : pathExists w a = true
      · simp [hex] at hb
        rw [← hb]
        exact hex
      · simp [Bool.of_not_eq_true hex] at hb
  · simp only [prunedSession] at hq
    exact (List.mem_filter.mp hq).2
  · simp only [prunedSession] at hne
    simp [get_session, load_session_data, save_session_data, hstore, hload,
      hne, hok, prunedSession]
  · simp only [prunedSession] at hne
    simp [get_session, load_session_data, save_session_data, hstore, hload,
      hne, hbad]

theorem get_session_spec_witness :
    (get_session worldWithSession).1
      = Except.ok (SessionData.mk [("/a/x.txt")] none) := by
  have h := (get_session_spec worldWithSession sampleSessionData rfl rfl).1
  rw [h]
  rfl

/-- C6: `save_session` replaces the whole persisted session document with
exactly the given values, and saving the empty session then reading it
back yields the empty session. -/
theorem save_session_spec (w : World) (ofs : List String)
    (af : Option String) (hsave : w.saveSessionFails = false) :
    save_session w ofs af
      = (Except.ok (), { w with sessionStore := some (SessionData.mk ofs af) }) ∧
    (w.loadSessionFails = false →
      (get_session (save_session w ([]) none).2).1
        = Except.ok (SessionData.mk [] none)) := by
  constructor
  · simp [save_session, save_session_data, hsave]
  · intro hload
    simp [save_session, save_session_data, get_session, load_session_data,
      hsave, hload]

theorem save_session_spec_witness :
    (get_session (save_session sampleWorld ([]) none).2).1
      = Except.ok (SessionData.mk [] none) :=
  (save_session_spec sampleWorld [] none rfl).2 rfl

/-- Truncating after an append is insensitive to first truncating the
appended tail at a larger or equal bound. -/
theorem take_append_take {α : Type} (m n : Nat) (hmn : m ≤ n)
    (xs ys : List α) : (xs ++ ys.take n).take m = (xs ++ ys).take m := by
  induction xs generalizing m with
  | nil => simp [List.take_take, Nat.min_eq_left hmn]
  | cons x xs ih =>
    cases m with
    | zero => simp
    | succ k =>
      simp only [List.cons_append, List.take_succ_cons]
      rw [ih k (le_trans (Nat.le_succ k) hmn)]

/-- Any successful `add_recent_file` call — whatever made it succeed — has
the canonical result: `ok` and the store replaced by the deduplicated,
front-inserted, truncated list. -/
theorem add_recent_file_of_ok (w : World) (t : Nat) (p : String)
    (h : (add_recent_file w t p).1 = Except.ok ()) :
    add_recent_file w t p =
      (Except.ok (), { w with recentStore := some (RecentFilesData.mk
          ((RecentFile.mk p ((fileName p).getD p) t ::
            (loadedFiles w).filter (fun f => f.path != p)).take
              MAX_RECENT_FILES)) }) := by
  cases hex : pathExists w p with
  | false => exact absurd h (by simp [add_recent_file, hex])
  | true =>
    cases hw : w.recentStore with
    | none =>
      cases hsave : w.saveRecentFails with
      | true =>
        exact absurd h (by simp [add_recent_file, load_recent_files_data,
          save_recent_files_data, hex, hsave, hw])
      | false =>
        simp [add_recent_file, load_recent_files_data,
          save_recent_files_data, loadedFiles, hex, hsave, hw]
    | some dd =>
      cases hload : w.loadRecentFails with
      | true =>
        exact absurd h (by simp [add_recent_file, load_recent_files_data,
          hex, hload, hw])
      | false =>
        cases hsave : w.saveRecentFails with
        | true =>
          exact absurd h (by simp [add_recent_file, load_recent_files_data,
            save_recent_files_data, hex, hload, hsave, hw])
        | false =>
          simp [add_recent_file, load_recent_files_data,
            save_recent_files_data, loadedFiles, hex, hload, hsave, hw]

/-- Running `add_recent_file` over a list of fresh, existing, pairwise
distinct paths succeeds and leaves as stored paths the reversed list
prepended to the old paths, truncated at the cap. -/
theorem addAll_ok_paths (l : List String) : ∀ (w : World) (t : Nat),
    w.loadRecentFails = false → w.saveRecentFails = false →
    (∀ p ∈ l, pathExists w p = true) → l.Nodup →
    (∀ p ∈ l, p ∉ pathsOf (loadedFiles w)) →
    (loadedFiles w).length ≤ MAX_RECENT_FILES →
    (addAll w t l).1 = Except.ok () ∧
    ((addAll w t l).2).disk = w.disk ∧
    pathsOf (loadedFiles ((addAll w t l).2))
      = (l.reverse ++ pathsOf (loadedFiles w)).take MAX_RECENT_FILES ∧
    (l ≠ [] → ∃ d, ((addAll w t l).2).recentStore = some d) := by
  induction l with
  | nil =>
    intro w t hload hsave hex hnd hnotin hlen
    refine ⟨rfl, rfl, ?_, fun hne => absurd rfl hne⟩
    rw [List.reverse_nil, List.nil_append, List.take_of_length_le]
    · rfl
    · rw [pathsOf, List.length_map]
      exact hlen
  | cons p rest ih =>
    intro w t hload hsave hex hnd hnotin hlen
    have hexp : pathExists w p = true := hex p (List.mem_cons_self p rest)
    have hpne : p ∉ pathsOf (loadedFiles w) :=
      hnotin p (List.mem_cons_self p rest)
    have hfilter : (loadedFiles w).filter (fun f => f.path != p)
        = loadedFiles w := by
      apply List.filter_eq_self.mpr
      intro f hf
      have hne : f.path ≠ p := by
        intro hfp
        exact hpne (by rw [← hfp]; exact List.mem_map_of_mem _ hf)
      simpa using hne
    have hcanon := add_recent_file_ok_eq w t p hexp hload hsave
    rw [hfilter] at hcanon
    have hw₁store : ((add_recent_file w t p).2).recentStore
        = some (RecentFilesData.mk
            ((RecentFile.mk p ((fileName p).getD p) t ::
              loadedFiles w).take MAX_RECENT_FILES)) := by
      rw [hcanon]
    have hw₁disk : ((add_recent_file w t p).2).disk = w.disk := by
      rw [hcanon]
    have hw₁load : ((add_recent_file w t p).2).loadRecentFails = false := by
      rw [hcanon]; exact hload
    have hw₁save : ((add_recent_file w t p).2).saveRecentFails = false := by
      rw [hcanon]; exact hsave
    have hw₁files : loadedFiles ((add_recent_file w t p).2)
        = (RecentFile.mk p ((fileName p).getD p) t ::
            loadedFiles w).take MAX_RECENT_FILES := by
      rw [loadedFiles, hw₁store]
      rfl
    have hw₁paths : pathsOf (loadedFiles ((add_recent_file w t p).2))
        = (p :: pathsOf (loadedFiles w)).take MAX_RECENT_FILES := by
      simp only [pathsOf, hw₁files, List.map_take, List.map_cons]
    have hnd' : rest.Nodup := (List.nodup_cons.mp hnd).2
    have hpnotrest : p ∉ rest := (List.nodup_cons.mp hnd).1
    have hstep : addAll w t (p :: rest)
        = addAll ((add_recent_file w t p).2) t rest := by
      simp only [addAll, hcanon]
    obtain ⟨kok, kdisk, kpaths, kstore⟩ :=
      ih ((add_recent_file w t p).2) t hw₁load hw₁save
        (fun q hq => by
          have hq' := hex q (List.mem_cons_of_mem p hq)
          rw [pathExists, hw₁disk]
          exact hq')
        hnd'
        (fun q hq hqmem => by
          rw [hw₁paths] at hqmem
          have hqmem' := List.mem_of_mem_take hqmem
          rcases List.mem_cons.mp hqmem' with hqp | hqold
          · exact hpnotrest (hqp ▸ hq)
          · exact hnotin q (List.mem_cons_of_mem p hq) hqold)
        (by rw [hw₁files, List.length_take]; exact min_le_left _ _)
    rw [hstep]
    refine ⟨kok, ?_, ?_, ?_⟩
    · rw [kdisk, hw₁disk]
    · rw [kpaths, hw₁paths]
      rw [take_append_take MAX_RECENT_FILES MAX_RECENT_FILES (le_refl _)]
      rw [List.reverse_cons, List.append_assoc, List.singleton_append]
    · intro hln
      by_cases hrest : rest = []
      · subst hrest
        exact ⟨_, hw₁store⟩
      · exact kstore hrest

/-- C2: after every successful `add_recent_file` the stored list has at
most `MAX_RECENT_FILES` entries, and path-uniqueness is preserved from the
pre-call store; adding eleven distinct existing paths to a fresh store
succeeds and leaves exactly the ten most-recently-added paths,
most-recent-first, with the first-added (oldest) path evicted. -/
theorem recent_list_invariant_and_eviction :
    (∀ (w : World) (t : Nat) (p : String),
        (add_recent_file w t p).1 = Except.ok () →
        ∀ d, ((add_recent_file w t p).2).recentStore = some d →
          d.files.length ≤ MAX_RECENT_FILES ∧
          ((pathsOf (loadedFiles w)).Nodup → (pathsOf d.files).Nodup)) ∧
    (∀ (w : World) (t : Nat) (l : List String),
        l.length = 11 → l.Nodup → (∀ p ∈ l, pathExists w p = true) →
        loadedFiles w = [] → w.loadRecentFails = false →
        w.saveRecentFails = false →
        (addAll w t l).1 = Except.ok () ∧
        ∃ d, ((addAll w t l).2).recentStore = some d ∧
          pathsOf d.files = (l.drop 1).reverse) := by
  constructor
  · intro w t p hok d hd
    have hcanon := add_recent_file_of_ok w t p hok
    rw [hcanon] at hd
    have hd' : RecentFilesData.mk
        ((RecentFile.mk p ((fileName p).getD p) t ::
          (loadedFiles w).filter (fun f => f.path != p)).take
            MAX_RECENT_FILES) = d := Option.some.inj hd
    subst hd'
    refine ⟨?_, fun hnodup => ?_⟩
    · show ((RecentFile.mk p ((fileName p).getD p) t ::
          (loadedFiles w).filter (fun f => f.path != p)).take
            MAX_RECENT_FILES).length ≤ MAX_RECENT_FILES
      rw [List.length_take]
      exact min_le_left _ _
    · show (pathsOf ((RecentFile.mk p ((fileName p).getD p) t ::
          (loadedFiles w).filter (fun f => f.path != p)).take
            MAX_RECENT_FILES)).Nodup
      apply List.Nodup.sublist ((List.take_sublist _ _).map _)
      show (pathsOf (RecentFile.mk p ((fileName p).getD p) t ::
          (loadedFiles w).filter (fun f => f.path != p))).Nodup
      simp only [pathsOf, List.map_cons]
      apply List.nodup_cons.mpr
      constructor
      · intro hmem
        obtain ⟨f, hf, hfp⟩ := List.mem_map.mp hmem
        have hfne := List.of_mem_filter hf
        simp only [bne_iff_ne, ne_eq] at hfne
        exact hfne hfp
      · exact List.Nodup.sublist ((List.filter_sublist _).map _) hnodup
  · intro w t l hlen hnd hex hempty hload hsave
    have hzero : (loadedFiles w).length ≤ MAX_RECENT_FILES := by
      rw [hempty]
      simp [MAX_RECENT_FILES]
    have hnotin : ∀ p ∈ l, p ∉ pathsOf (loadedFiles w) := by
      intro q hq hmem
      rw [hempty] at hmem
      simp [pathsOf] at hmem
    obtain ⟨kok, kdisk, kpaths, kstore⟩ :=
      addAll_ok_paths l w t hload hsave hex hnd hnotin hzero
    refine ⟨kok, ?_⟩
    have hlne : l ≠ [] := by
      intro h0
      rw [h0] at hlen
      simp at hlen
    obtain ⟨d, hd⟩ := kstore hlne
    refine ⟨d, hd, ?_⟩
    have hfiles : loadedFiles ((addAll w t l).2) = d.files := by
      rw [loadedFiles, hd]
      rfl
    rw [← hfiles, kpaths, hempty]
    simp only [pathsOf, List.map_nil, List.append_nil]
    obtain ⟨a, l', rfl⟩ : ∃ a l', l = a :: l' := by
      cases l with
      | nil => exact absurd hlen (by simp)
      | cons a l' => exact ⟨a, l', rfl⟩
    have hl10 : l'.reverse.length = 10 := by
      rw [List.length_reverse]
      simpa using hlen
    have hdrop : (a :: l').drop 1 = l' := by simp
    rw [List.reverse_cons, hdrop, MAX_RECENT_FILES, ← hl10]
    exact List.take_left _ _

theorem recent_list_invariant_and_eviction_witness :
    (addAll elevenWorld 1 elevenPaths).1 = Except.ok () :=
  (recent_list_invariant_and_eviction.2 elevenWorld 1 elevenPaths
    (by decide) (by decide) (by decide) rfl rfl rfl).1

end Hone
